import Mathlib

/-!
Verification of the external-dns plan/diff engine, its policy chain, and the
registry ownership filter.

The Go sources embedded here are the `plan` package (`RecordKey`, `Plan`,
`NewPlan`, `Changes`, `Calculate`) and the `registry` package's
`filterOwnedRecords`.  Go maps are embedded as association lists processed in
insertion order (a legitimate instantiation: Go map iteration order is
unspecified).  Members of the `endpoint` package whose source is not in the
repository snapshot (`TargetSliceEquals`, `OwnerLabelKey`, the `Endpoint` and
`EndpointSet` structs) are modelled from the specification document and marked
as such in their doc comments.
-/

/-- Label maps: the Go `map[string]string` carried by endpoints, embedded as an
association list. -/
abbrev LabelMap := List (String × String)

/-- Modelled from the spec: the `endpoint.Endpoint` struct is not under src.
Spec §3: `{ DNSName, Target, RecordType, AliasTarget, Labels }`. -/
structure Endpoint where
  DNSName : String
  Target : String
  RecordType : String
  AliasTarget : Bool
  Labels : LabelMap
deriving DecidableEq

/-- Go `plan.RecordKey`: identity tuple `{RecordType, DNSName}`. -/
structure RecordKey where
  RecordType : String
  DNSName : String
deriving DecidableEq

/-- Modelled from the spec: the `endpoint.EndpointSet` struct is not under src.
Spec §3: `{DNSName, RecordType, Targets: ordered list, Labels}`. -/
structure EndpointSet where
  DNSName : String
  RecordType : String
  Targets : List String
  Labels : LabelMap
deriving DecidableEq

/-- Go `plan.Changes`: four ordered lists of `EndpointSet`. -/
structure Changes where
  Create : List EndpointSet
  UpdateOld : List EndpointSet
  UpdateNew : List EndpointSet
  Delete : List EndpointSet
deriving DecidableEq

/-- Modelled from the spec: the `plan.Policy` interface declaration is not under
src; §4.2 gives its contract `Apply(changes: Changes) -> Changes`, a total pure
transformation, so a policy is embedded as a function on `Changes`. -/
def Policy := Changes → Changes

/-- Go `plan.Plan`: ephemeral aggregation state for one reconciliation pass. -/
structure Plan where
  Aliases : List (String × List Endpoint)
  Labels : List (RecordKey × LabelMap)
  CurrentTargets : List (RecordKey × List String)
  RecordTargets : List (RecordKey × List String)
  Policies : List Policy
  Changes : Option Changes

/-- Lookup in an association-list embedding of a Go map: the value for `k`,
`none` when absent. -/
def mapFind {α β : Type} [DecidableEq α] : List (α × β) → α → Option β
  | [], _ => none
  | (k', v) :: rest, k => if k' = k then some v else mapFind rest k

/-- Go `m[k] = append(m[k], v)` on a `map[K][]V`: append `v` to the bucket of
`k`, creating the bucket when absent. -/
def mapApp {α β : Type} [DecidableEq α] : List (α × List β) → α → β → List (α × List β)
  | [], k, v => [(k, [v])]
  | (k', vs) :: rest, k, v =>
    if k' = k then (k', vs ++ [v]) :: rest else (k', vs) :: mapApp rest k v

/-- Go `m[k] = v` on a map: overwrite the entry for `k`, creating it when
absent. -/
def mapPut {α β : Type} [DecidableEq α] : List (α × β) → α → β → List (α × β)
  | [], k, v => [(k, v)]
  | (k', v') :: rest, k, v =>
    if k' = k then (k', v) :: rest else (k', v') :: mapPut rest k v

/-- Keys of an association-list map, in insertion order. -/
def keys {α β : Type} (m : List (α × β)) : List α :=
  m.map Prod.fst

/-- Modelled from the spec: `endpoint.RecordTypeInternalALIAS` is a string
constant of the `endpoint` package, not under src; only its identity matters. -/
def RecordTypeInternalALIAS : String := "InternalAlias"

/-- Modelled from the spec: `endpoint.OwnerLabelKey` is the reserved ownership
label key of the `endpoint` package, not under src; only its identity matters. -/
def OwnerLabelKey : String := "external-dns/owner"

/-- Modelled from the spec: `endpoint.TargetSliceEquals` is not under src.
Spec §3 requires target-list equality to be multiset equality (same elements
with same multiplicities, order-independent), i.e. list permutation. -/
def TargetSliceEquals (a b : List String) : Bool :=
  a.isPerm b

/-- Go `plan.NewPlan(current, desired, policy)`: partition `desired` into alias
endpoints (indexed by DNSName) and regular records, aggregate desired targets
per RecordKey (expanding `InternalAlias` records through the alias index),
then aggregate current targets and snapshot current Labels per RecordKey. -/
def NewPlan (current desired : List Endpoint) (policy : Policy) : Plan :=
  let aliases := desired.foldl
    (fun m ep => if ep.AliasTarget then mapApp m ep.DNSName ep else m) []
  let records := desired.filter (fun ep => !ep.AliasTarget)
  let recordTargets := records.foldl
    (fun m ep =>
      if ep.RecordType = RecordTypeInternalALIAS then
        ((mapFind aliases ep.Target).getD []).foldl
          (fun m al => mapApp m ⟨al.RecordType, ep.DNSName⟩ al.Target) m
      else
        mapApp m ⟨ep.RecordType, ep.DNSName⟩ ep.Target) []
  let labels := current.foldl
    (fun m ep => mapPut m ⟨ep.RecordType, ep.DNSName⟩ ep.Labels) []
  let currentTargets := current.foldl
    (fun m ep => mapApp m ⟨ep.RecordType, ep.DNSName⟩ ep.Target) []
  { Aliases := aliases
    Labels := labels
    CurrentTargets := currentTargets
    RecordTargets := recordTargets
    Policies := [policy]
    Changes := none }

/-- First loop of Go `Calculate`: iterate the desired buckets producing the
`Create` list and the paired `UpdateOld`/`UpdateNew` lists. -/
def diffCreateUpdate (cur : List (RecordKey × List String))
    (labels : List (RecordKey × LabelMap)) :
    List (RecordKey × List String) →
    List EndpointSet × List EndpointSet × List EndpointSet
  | [] => ([], [], [])
  | (key, desired) :: rest =>
    let (c, uo, un) := diffCreateUpdate cur labels rest
    match mapFind cur key with
    | none => (⟨key.DNSName, key.RecordType, desired, []⟩ :: c, uo, un)
    | some current =>
      if TargetSliceEquals current desired then
        (c, uo, un)
      else
        (c,
         ⟨key.DNSName, key.RecordType, current, (mapFind labels key).getD []⟩ :: uo,
         ⟨key.DNSName, key.RecordType, desired, (mapFind labels key).getD []⟩ :: un)

/-- Second loop of Go `Calculate`: iterate the current buckets producing the
`Delete` list. -/
def diffDelete (rts : List (RecordKey × List String))
    (labels : List (RecordKey × LabelMap)) :
    List (RecordKey × List String) → List EndpointSet
  | [] => []
  | (key, current) :: rest =>
    match mapFind rts key with
    | none =>
      ⟨key.DNSName, key.RecordType, current, (mapFind labels key).getD []⟩
        :: diffDelete rts labels rest
    | some _ => diffDelete rts labels rest

/-- Diff part of Go `Calculate` (before the policy loop). -/
def calcChanges (plan : Plan) : Changes :=
  let (c, uo, un) := diffCreateUpdate plan.CurrentTargets plan.Labels plan.RecordTargets
  { Create := c
    UpdateOld := uo
    UpdateNew := un
    Delete := diffDelete plan.RecordTargets plan.Labels plan.CurrentTargets }

/-- Policy loop of Go `Calculate`: `for _, pol := range plan.Policies { changes
= pol.Apply(changes) }`. -/
def applyPolicies : List Policy → Changes → Changes
  | [], changes => changes
  | pol :: rest, changes => applyPolicies rest (pol changes)

/-- Go `(*Plan).Calculate`: compute the diff, pass it through the policies in
order, and return a fresh `Plan` carrying the alias index, both bucket maps and
the final changes (its `Labels`, `Policies` and other fields are zero-valued). -/
def Calculate (plan : Plan) : Plan :=
  let changes := applyPolicies plan.Policies (calcChanges plan)
  { Aliases := plan.Aliases
    Labels := []
    CurrentTargets := plan.CurrentTargets
    RecordTargets := plan.RecordTargets
    Policies := []
    Changes := some changes }

/-- Go `registry.filterOwnedRecords(ownerID, endpointSets)`: keep exactly the
sets whose owner label is present and equals `ownerID`; a set whose owner label
is absent, or present with a different value, is skipped. -/
def filterOwnedRecords (ownerID : String) : List EndpointSet → List EndpointSet
  | [] => []
  | endpointSet :: rest =>
    match mapFind endpointSet.Labels OwnerLabelKey with
    | none => filterOwnedRecords ownerID rest
    | some endpointOwner =>
      if endpointOwner = ownerID then
        endpointSet :: filterOwnedRecords ownerID rest
      else
        filterOwnedRecords ownerID rest

/-- RecordKey of an endpoint, as Go `Calculate`'s loops build it. -/
def epKey (ep : Endpoint) : RecordKey :=
  ⟨ep.RecordType, ep.DNSName⟩

/-- RecordKey of an EndpointSet, recovering the key its emitting loop used. -/
def esKey (es : EndpointSet) : RecordKey :=
  ⟨es.RecordType, es.DNSName⟩

/-- Selects the desired buckets that land in the update branch of `Calculate`:
the key exists in the current buckets and the target lists differ. -/
def updFilter (cur : List (RecordKey × List String)) (kd : RecordKey × List String) : Bool :=
  match mapFind cur kd.1 with
  | none => false
  | some current => !TargetSliceEquals current kd.2

/-- Modelled from the spec: §4.2's pass-through "sync" policy (identity). -/
def syncPolicy : Policy :=
  fun changes => changes

/-- Concrete endpoint used by several witnesses. -/
def epW (n t ty : String) : Endpoint :=
  ⟨n, t, ty, false, []⟩

/-- Concrete record key used by several witnesses. -/
def keyW : RecordKey :=
  ⟨"A", "x.com"⟩

/-- Concrete plan whose single key has permuted (multiset-equal) target lists. -/
def planW : Plan :=
  ⟨[], [(keyW, [("owner", "me")])], [(keyW, ["b", "a"])], [(keyW, ["a", "b"])], [], none⟩

/-- Concrete plan whose single key has genuinely differing target lists. -/
def planW3 : Plan :=
  ⟨[], [(keyW, [("owner", "me")])], [(keyW, ["old"])], [(keyW, ["new"])], [], none⟩

/-- Concrete AliasTarget endpoint from the spec's alias-resolution scenario. -/
def lbW : Endpoint :=
  ⟨"lb", "A", "CNAME", true, []⟩

/-- Concrete InternalAlias endpoint from the spec's alias-resolution scenario. -/
def appW : Endpoint :=
  ⟨"app.example.com", "lb", RecordTypeInternalALIAS, false, []⟩

/-! ### Association-list map lemmas -/

theorem mapFind_mapApp_self {α β : Type} [DecidableEq α]
    (m : List (α × List β)) (k : α) (v : β) :
    mapFind (mapApp m k v) k = some ((mapFind m k).getD [] ++ [v]) := by
  induction m with
  | nil => simp [mapApp, mapFind]
  | cons hd tl ih =>
    obtain ⟨k', vs⟩ := hd
    by_cases h : k' = k
    · subst h
      simp [mapApp, mapFind]
    · simp [mapApp, mapFind, h, ih]

theorem mapFind_mapApp_ne {α β : Type} [DecidableEq α]
    (m : List (α × List β)) (k k' : α) (v : β) (h : k' ≠ k) :
    mapFind (mapApp m k v) k' = mapFind m k' := by
  have hk : ¬k = k' := fun he => h he.symm
  induction m with
  | nil => simp [mapApp, mapFind, hk]
  | cons hd tl ih =>
    obtain ⟨k₀, vs⟩ := hd
    by_cases h0 : k₀ = k
    · subst h0
      simp [mapApp, mapFind, hk]
    · simp [mapApp, mapFind, h0, ih]

theorem mapFind_mapPut_self {α β : Type} [DecidableEq α]
    (m : List (α × β)) (k : α) (v : β) :
    mapFind (mapPut m k v) k = some v := by
  induction m with
  | nil => simp [mapPut, mapFind]
  | cons hd tl ih =>
    obtain ⟨k₀, v₀⟩ := hd
    by_cases h0 : k₀ = k
    · subst h0
      simp [mapPut, mapFind]
    · simp [mapPut, mapFind, h0, ih]

theorem mapFind_mapPut_ne {α β : Type} [DecidableEq α]
    (m : List (α × β)) (k k' : α) (v : β) (h : k' ≠ k) :
    mapFind (mapPut m k v) k' = mapFind m k' := by
  have hk : ¬k = k' := fun he => h he.symm
  induction m with
  | nil => simp [mapPut, mapFind, hk]
  | cons hd tl ih =>
    obtain ⟨k₀, v₀⟩ := hd
    by_cases h0 : k₀ = k
    · subst h0
      simp [mapPut, mapFind, hk]
    · simp [mapPut, mapFind, h0, ih]

theorem mapFind_isSome_iff_mem_keys {α β : Type} [DecidableEq α]
    (m : List (α × β)) (k : α) :
    (mapFind m k).isSome ↔ k ∈ keys m := by
  induction m with
  | nil => simp [mapFind, keys]
  | cons hd tl ih =>
    obtain ⟨k₀, v₀⟩ := hd
    by_cases h0 : k₀ = k
    · subst h0
      simp [mapFind, keys]
    · have hk : ¬k = k₀ := fun he => h0 he.symm
      simp [mapFind, keys, h0, hk, ih]

theorem mapFind_eq_none_of_not_mem_keys {α β : Type} [DecidableEq α]
    (m : List (α × β)) (k : α) (h : k ∉ keys m) :
    mapFind m k = none := by
  cases hf : mapFind m k with
  | none => rfl
  | some v =>
    exact absurd ((mapFind_isSome_iff_mem_keys m k).mp (by simp [hf])) h

theorem mapFind_isSome_of_mem {α β : Type} [DecidableEq α]
    (m : List (α × β)) (k : α) (v : β) (h : (k, v) ∈ m) :
    (mapFind m k).isSome := by
  rw [mapFind_isSome_iff_mem_keys]
  exact List.mem_map.mpr ⟨(k, v), h, rfl⟩

theorem mapFind_eq_of_mem {α β : Type} [DecidableEq α]
    (m : List (α × β)) (k : α) (v : β)
    (hnd : (keys m).Nodup) (h : (k, v) ∈ m) :
    mapFind m k = some v := by
  induction m with
  | nil => simp at h
  | cons hd tl ih =>
    obtain ⟨k₀, v₀⟩ := hd
    simp only [keys, List.map_cons, List.nodup_cons] at hnd
    rcases List.mem_cons.mp h with h1 | h1
    · rw [Prod.mk.injEq] at h1
      obtain ⟨hk, hv⟩ := h1
      subst hk
      subst hv
      simp [mapFind]
    · have hne : ¬k₀ = k := by
        intro he
        subst he
        exact hnd.1 (List.mem_map.mpr ⟨(k₀, v), h1, rfl⟩)
      simpa [mapFind, hne] using ih hnd.2 h1

theorem keys_mapApp {α β : Type} [DecidableEq α]
    (m : List (α × List β)) (k : α) (v : β) :
    keys (mapApp m k v) = if k ∈ keys m then keys m else keys m ++ [k] := by
  induction m with
  | nil => simp [mapApp, keys]
  | cons hd tl ih =>
    obtain ⟨k₀, vs⟩ := hd
    by_cases h0 : k₀ = k
    · subst h0
      simp [mapApp, keys]
    · have hk : ¬k = k₀ := fun he => h0 he.symm
      by_cases h1 : k ∈ keys tl
      · simp only [keys] at h1
        simp only [keys, mapApp, if_neg h0, List.map_cons] at ih ⊢
        rw [ih]
        simp [h1, hk]
      · simp only [keys] at h1
        simp only [keys, mapApp, if_neg h0, List.map_cons] at ih ⊢
        rw [ih]
        simp [h1, hk]

theorem nodupKeys_mapApp {α β : Type} [DecidableEq α]
    (m : List (α × List β)) (k : α) (v : β) (h : (keys m).Nodup) :
    (keys (mapApp m k v)).Nodup := by
  rw [keys_mapApp]
  by_cases h1 : k ∈ keys m
  · simpa [h1] using h
  · simp only [h1, if_false]
    exact List.Nodup.append h (List.nodup_singleton k)
      (by simpa [List.disjoint_singleton] using h1)

theorem nodupKeys_foldl {α β γ : Type} [DecidableEq α]
    (step : List (α × List β) → γ → List (α × List β))
    (hstep : ∀ m x, (keys m).Nodup → (keys (step m x)).Nodup)
    (l : List γ) (init : List (α × List β)) (h : (keys init).Nodup) :
    (keys (l.foldl step init)).Nodup := by
  induction l generalizing init with
  | nil => simpa using h
  | cons hd tl ih => exact ih (step init hd) (hstep init hd h)

/-! ### Characterizations of the two diff loops -/

theorem diffCreateUpdate_eq (cur : List (RecordKey × List String))
    (labels : List (RecordKey × LabelMap)) (rts : List (RecordKey × List String)) :
    diffCreateUpdate cur labels rts =
      ((rts.filter fun kd => (mapFind cur kd.1).isNone).map
          fun kd => ⟨kd.1.DNSName, kd.1.RecordType, kd.2, []⟩,
       (rts.filter (updFilter cur)).map
          fun kd => ⟨kd.1.DNSName, kd.1.RecordType, (mapFind cur kd.1).getD [],
            (mapFind labels kd.1).getD []⟩,
       (rts.filter (updFilter cur)).map
          fun kd => ⟨kd.1.DNSName, kd.1.RecordType, kd.2,
            (mapFind labels kd.1).getD []⟩) := by
  induction rts with
  | nil => simp [diffCreateUpdate]
  | cons hd tl ih =>
    obtain ⟨key, desired⟩ := hd
    cases hf : mapFind cur key with
    | none =>
      simp [diffCreateUpdate, ih, hf, updFilter, List.filter_cons]
    | some current =>
      cases hts : TargetSliceEquals current desired with
      | true => simp [diffCreateUpdate, ih, hf, hts, updFilter, List.filter_cons]
      | false => simp [diffCreateUpdate, ih, hf, hts, updFilter, List.filter_cons]

theorem diffDelete_eq (rts : List (RecordKey × List String))
    (labels : List (RecordKey × LabelMap)) (cts : List (RecordKey × List String)) :
    diffDelete rts labels cts =
      (cts.filter fun kd => (mapFind rts kd.1).isNone).map
        fun kd => ⟨kd.1.DNSName, kd.1.RecordType, kd.2, (mapFind labels kd.1).getD []⟩ := by
  induction cts with
  | nil => simp [diffDelete]
  | cons hd tl ih =>
    obtain ⟨key, current⟩ := hd
    cases hf : mapFind rts key with
    | none => simp [diffDelete, ih, hf, List.filter_cons]
    | some v => simp [diffDelete, ih, hf, List.filter_cons]

/-! ### NewPlan field equations -/

theorem NewPlan_Aliases (current desired : List Endpoint) (policy : Policy) :
    (NewPlan current desired policy).Aliases =
      desired.foldl (fun m ep => if ep.AliasTarget then mapApp m ep.DNSName ep else m) [] :=
  rfl

theorem NewPlan_Labels (current desired : List Endpoint) (policy : Policy) :
    (NewPlan current desired policy).Labels =
      current.foldl (fun m ep => mapPut m ⟨ep.RecordType, ep.DNSName⟩ ep.Labels) [] :=
  rfl

theorem NewPlan_CurrentTargets (current desired : List Endpoint) (policy : Policy) :
    (NewPlan current desired policy).CurrentTargets =
      current.foldl (fun m ep => mapApp m ⟨ep.RecordType, ep.DNSName⟩ ep.Target) [] :=
  rfl

theorem NewPlan_RecordTargets (current desired : List Endpoint) (policy : Policy) :
    (NewPlan current desired policy).RecordTargets =
      (desired.filter fun ep => !ep.AliasTarget).foldl
        (fun m ep =>
          if ep.RecordType = RecordTypeInternalALIAS then
            ((mapFind (NewPlan current desired policy).Aliases ep.Target).getD []).foldl
              (fun m al => mapApp m ⟨al.RecordType, ep.DNSName⟩ al.Target) m
          else
            mapApp m ⟨ep.RecordType, ep.DNSName⟩ ep.Target) [] :=
  rfl

theorem NewPlan_Policies (current desired : List Endpoint) (policy : Policy) :
    (NewPlan current desired policy).Policies = [policy] :=
  rfl

/-! ### Aggregation fold lemmas -/

theorem getLast?_cons_eq {α : Type} (a : α) (l : List α) :
    (a :: l).getLast? = some (l.getLast?.getD a) := by
  induction l generalizing a with
  | nil => rfl
  | cons b l ih =>
    rw [List.getLast?_cons_cons, ih b]
    rfl

theorem labelsFold_find (eps : List Endpoint) (init : List (RecordKey × LabelMap))
    (k : RecordKey) :
    mapFind (eps.foldl (fun m ep => mapPut m ⟨ep.RecordType, ep.DNSName⟩ ep.Labels) init) k =
      (match (eps.filter fun ep => decide (epKey ep = k)).getLast? with
       | none => mapFind init k
       | some ep => some ep.Labels) := by
  induction eps generalizing init with
  | nil => simp
  | cons ep tl ih =>
    by_cases hk : epKey ep = k
    · have hkey : (⟨ep.RecordType, ep.DNSName⟩ : RecordKey) = k := hk
      rw [List.foldl_cons, ih, List.filter_cons_of_pos (by simpa using hk),
        getLast?_cons_eq]
      cases hft : (tl.filter fun ep => decide (epKey ep = k)).getLast? with
      | none => simp [hkey, mapFind_mapPut_self]
      | some e => simp [hft]
    · have hkey : k ≠ (⟨ep.RecordType, ep.DNSName⟩ : RecordKey) := fun he => hk he.symm
      rw [List.foldl_cons, ih, List.filter_cons_of_neg (by simpa using hk),
        mapFind_mapPut_ne _ _ _ _ hkey]

theorem ctargetsFold_find (eps : List Endpoint) (init : List (RecordKey × List String))
    (k : RecordKey) :
    mapFind (eps.foldl (fun m ep => mapApp m ⟨ep.RecordType, ep.DNSName⟩ ep.Target) init) k =
      (if (eps.filter fun ep => decide (epKey ep = k)).isEmpty then mapFind init k
       else some ((mapFind init k).getD [] ++
         (eps.filter fun ep => decide (epKey ep = k)).map Endpoint.Target)) := by
  induction eps generalizing init with
  | nil => simp
  | cons ep tl ih =>
    by_cases hk : epKey ep = k
    · have hkey : (⟨ep.RecordType, ep.DNSName⟩ : RecordKey) = k := hk
      rw [List.foldl_cons, ih, List.filter_cons_of_pos (by simpa using hk), hkey,
        mapFind_mapApp_self]
      cases hft : (tl.filter fun ep => decide (epKey ep = k)) with
      | nil => simp
      | cons x xs => simp
    · have hkey : k ≠ (⟨ep.RecordType, ep.DNSName⟩ : RecordKey) := fun he => hk he.symm
      rw [List.foldl_cons, ih, List.filter_cons_of_neg (by simpa using hk),
        mapFind_mapApp_ne _ _ _ _ hkey]

/-! ### Bucket membership lemmas for alias expansion -/

theorem bucketMem_mapApp_self {α β : Type} [DecidableEq α]
    (m : List (α × List β)) (k : α) (v : β) :
    v ∈ (mapFind (mapApp m k v) k).getD [] := by
  rw [mapFind_mapApp_self]
  simp

theorem bucketMem_mapApp_mono {α β : Type} [DecidableEq α]
    (m : List (α × List β)) (k' : α) (v' : β) (k : α) (v : β)
    (h : v ∈ (mapFind m k).getD []) :
    v ∈ (mapFind (mapApp m k' v') k).getD [] := by
  by_cases he : k' = k
  · subst he
    rw [mapFind_mapApp_self]
    simp only [Option.getD_some]
    exact List.mem_append_left _ h
  · rw [mapFind_mapApp_ne _ _ _ _ (fun h2 => he h2.symm)]
    exact h

theorem bucketMem_innerFold_mono (l : List Endpoint) (d : String)
    (m : List (RecordKey × List String)) (k : RecordKey) (v : String)
    (h : v ∈ (mapFind m k).getD []) :
    v ∈ (mapFind (l.foldl (fun m al => mapApp m ⟨al.RecordType, d⟩ al.Target) m) k).getD [] := by
  induction l generalizing m with
  | nil => exact h
  | cons a tl ih => exact ih _ (bucketMem_mapApp_mono _ _ _ _ _ h)

theorem bucketMem_innerFold_self (l : List Endpoint) (d : String)
    (m : List (RecordKey × List String)) (al : Endpoint) (hal : al ∈ l) :
    al.Target ∈
      (mapFind (l.foldl (fun m al => mapApp m ⟨al.RecordType, d⟩ al.Target) m)
        ⟨al.RecordType, d⟩).getD [] := by
  induction l generalizing m with
  | nil => simp at hal
  | cons a tl ih =>
    rcases List.mem_cons.mp hal with h1 | h1
    · subst h1
      exact bucketMem_innerFold_mono tl d _ _ _ (bucketMem_mapApp_self m _ _)
    · exact ih _ h1

theorem bucketMem_recordsFold_mono (aliases : List (String × List Endpoint))
    (l : List Endpoint) (m : List (RecordKey × List String)) (k : RecordKey) (v : String)
    (h : v ∈ (mapFind m k).getD []) :
    v ∈ (mapFind (l.foldl
      (fun m ep =>
        if ep.RecordType = RecordTypeInternalALIAS then
          ((mapFind aliases ep.Target).getD []).foldl
            (fun m al => mapApp m ⟨al.RecordType, ep.DNSName⟩ al.Target) m
        else
          mapApp m ⟨ep.RecordType, ep.DNSName⟩ ep.Target) m) k).getD [] := by
  induction l generalizing m with
  | nil => exact h
  | cons ep tl ih =>
    rw [List.foldl_cons]
    by_cases ht : ep.RecordType = RecordTypeInternalALIAS
    · simp only [ht, if_true]
      exact ih _ (bucketMem_innerFold_mono _ _ _ _ _ h)
    · simp only [ht, if_false]
      exact ih _ (bucketMem_mapApp_mono _ _ _ _ _ h)

theorem recordsFold_alias_mem (aliases : List (String × List Endpoint))
    (records : List Endpoint) (m : List (RecordKey × List String))
    (ep al : Endpoint) (hep : ep ∈ records)
    (htype : ep.RecordType = RecordTypeInternalALIAS)
    (hal : al ∈ (mapFind aliases ep.Target).getD []) :
    al.Target ∈ (mapFind (records.foldl
      (fun m ep =>
        if ep.RecordType = RecordTypeInternalALIAS then
          ((mapFind aliases ep.Target).getD []).foldl
            (fun m al => mapApp m ⟨al.RecordType, ep.DNSName⟩ al.Target) m
        else
          mapApp m ⟨ep.RecordType, ep.DNSName⟩ ep.Target) m)
      ⟨al.RecordType, ep.DNSName⟩).getD [] := by
  induction records generalizing m with
  | nil => simp at hep
  | cons e tl ih =>
    rw [List.foldl_cons]
    rcases List.mem_cons.mp hep with h1 | h1
    · subst h1
      simp only [htype, if_true]
      exact bucketMem_recordsFold_mono aliases tl _ _ _
        (bucketMem_innerFold_self _ _ _ _ hal)
    · exact ih _ h1

/-! ### Policy chain lemmas -/

theorem applyPolicies_eq_foldl (pols : List Policy) (changes : Changes) :
    applyPolicies pols changes = pols.foldl (fun c pol => pol c) changes := by
  induction pols generalizing changes with
  | nil => rfl
  | cons pol rest ih => simp [applyPolicies, ih]

theorem applyPolicies_append (ps qs : List Policy) (changes : Changes) :
    applyPolicies (ps ++ qs) changes = applyPolicies qs (applyPolicies ps changes) := by
  induction ps generalizing changes with
  | nil => rfl
  | cons pol rest ih => simp [applyPolicies, ih]

/-! ### Remaining support lemmas -/

theorem mem_of_mapFind_eq_some {α β : Type} [DecidableEq α]
    (m : List (α × β)) (k : α) (v : β) (h : mapFind m k = some v) :
    (k, v) ∈ m := by
  induction m with
  | nil => simp [mapFind] at h
  | cons hd tl ih =>
    obtain ⟨k₀, v₀⟩ := hd
    by_cases h0 : k₀ = k
    · subst h0
      simp [mapFind] at h
      subst h
      exact List.mem_cons_self _ _
    · simp only [mapFind, if_neg h0] at h
      exact List.mem_cons_of_mem _ (ih h)

theorem TargetSliceEquals_eq_true_iff (a b : List String) :
    TargetSliceEquals a b = true ↔ (a : Multiset String) = (b : Multiset String) := by
  rw [TargetSliceEquals, List.isPerm_iff, Multiset.coe_eq_coe]

theorem calcChanges_eq (p : Plan) :
    calcChanges p =
      { Create := (p.RecordTargets.filter fun kd => (mapFind p.CurrentTargets kd.1).isNone).map
          fun kd => ⟨kd.1.DNSName, kd.1.RecordType, kd.2, []⟩
        UpdateOld := (p.RecordTargets.filter (updFilter p.CurrentTargets)).map
          fun kd => ⟨kd.1.DNSName, kd.1.RecordType, (mapFind p.CurrentTargets kd.1).getD [],
            (mapFind p.Labels kd.1).getD []⟩
        UpdateNew := (p.RecordTargets.filter (updFilter p.CurrentTargets)).map
          fun kd => ⟨kd.1.DNSName, kd.1.RecordType, kd.2, (mapFind p.Labels kd.1).getD []⟩
        Delete := (p.CurrentTargets.filter fun kd => (mapFind p.RecordTargets kd.1).isNone).map
          fun kd => ⟨kd.1.DNSName, kd.1.RecordType, kd.2, (mapFind p.Labels kd.1).getD []⟩ } := by
  unfold calcChanges
  rw [diffCreateUpdate_eq, diffDelete_eq]

theorem nodupKeys_NewPlan_RecordTargets (current desired : List Endpoint) (policy : Policy) :
    (keys (NewPlan current desired policy).RecordTargets).Nodup := by
  rw [NewPlan_RecordTargets]
  refine nodupKeys_foldl _ ?_ _ _ (by simp [keys])
  intro m ep hm
  by_cases ht : ep.RecordType = RecordTypeInternalALIAS
  · rw [if_pos ht]
    refine nodupKeys_foldl _ ?_ _ _ hm
    intro m' al hm'
    exact nodupKeys_mapApp _ _ _ hm'
  · rw [if_neg ht]
    exact nodupKeys_mapApp _ _ _ hm

theorem nodupKeys_NewPlan_CurrentTargets (current desired : List Endpoint) (policy : Policy) :
    (keys (NewPlan current desired policy).CurrentTargets).Nodup := by
  rw [NewPlan_CurrentTargets]
  refine nodupKeys_foldl _ ?_ _ _ (by simp [keys])
  intro m ep hm
  exact nodupKeys_mapApp _ _ _ hm

theorem Plan_ext (p q : Plan)
    (h1 : p.Aliases = q.Aliases) (h2 : p.Labels = q.Labels)
    (h3 : p.CurrentTargets = q.CurrentTargets) (h4 : p.RecordTargets = q.RecordTargets)
    (h5 : p.Policies = q.Policies) (h6 : p.Changes = q.Changes) : p = q := by
  cases p
  cases q
  rw [Plan.mk.injEq]
  exact ⟨h1, h2, h3, h4, h5, h6⟩

/-! ### Claim theorems -/

/-- Claim C9: `Calculate` applies the policies in configured list order as a
left-to-right fold — each policy receives the `Changes` returned by the
previous one, the first receiving the raw diff-computed `Changes` — and the
`Changes` carried by the returned `Plan` is exactly the output of the last
policy. -/
theorem Calculate_policies_left_fold (p : Plan) :
    (Calculate p).Changes =
      some (p.Policies.foldl (fun changes pol => pol changes) (calcChanges p)) ∧
    ∀ (ps : List Policy) (q : Policy) (changes : Changes),
      applyPolicies (ps ++ [q]) changes = q (applyPolicies ps changes) := by
  constructor
  · show some (applyPolicies p.Policies (calcChanges p)) = _
    rw [applyPolicies_eq_foldl]
  · intro ps q changes
    rw [applyPolicies_append]
    rfl

/-- Claim C10: `Calculate` does not mutate its receiver (the embedding is pure:
the receiver is an immutable value and the result is a freshly built `Plan`);
the returned `Plan` copies the receiver's `Aliases`, `CurrentTargets` and
`RecordTargets`, carries the computed `Changes`, and has no `Policies`, so
recomputing from the returned `Plan` applies no policy. -/
theorem Calculate_frame (p : Plan) :
    (Calculate p).Aliases = p.Aliases ∧
    (Calculate p).CurrentTargets = p.CurrentTargets ∧
    (Calculate p).RecordTargets = p.RecordTargets ∧
    (Calculate p).Policies = [] ∧
    (Calculate p).Changes = some (applyPolicies p.Policies (calcChanges p)) ∧
    (Calculate (Calculate p)).Changes = some (calcChanges (Calculate p)) :=
  ⟨rfl, rfl, rfl, rfl, rfl, rfl⟩

/-- Claim C4, counterexample: against the claim, `filterOwnedRecords` with the
empty ownerID does NOT return an `EndpointSet` carrying no owner label — the
missing label is dropped, not treated as an equal-string match. -/
theorem filterOwnedRecords_unlabeled_dropped_counterexample :
    filterOwnedRecords "" [⟨"a.example.com", "A", ["1.2.3.4"], []⟩] = [] ∧
    filterOwnedRecords "" [⟨"a.example.com", "A", ["1.2.3.4"], []⟩] ≠
      [⟨"a.example.com", "A", ["1.2.3.4"], []⟩] := by
  constructor
  · rfl
  · decide

/-- Claim C4, amended: for every ownerID (the empty string included) and every
list of `EndpointSet`s none of which carries the owner label — in particular
sets whose `Labels` are empty, as `Create`/`UpdateNew` sets are by
construction — `filterOwnedRecords` drops every set and returns the empty
list. -/
theorem filterOwnedRecords_missing_owner_label_dropped (ownerID : String)
    (endpointSets : List EndpointSet)
    (h : ∀ es ∈ endpointSets, mapFind es.Labels OwnerLabelKey = none) :
    filterOwnedRecords ownerID endpointSets = [] := by
  induction endpointSets with
  | nil => rfl
  | cons es tl ih =>
    have h1 := h es (List.mem_cons_self es tl)
    simp only [filterOwnedRecords, h1]
    exact ih fun e he => h e (List.mem_cons_of_mem _ he)

/-- Claim C4, witness for the amended theorem. -/
theorem filterOwnedRecords_missing_owner_label_dropped_witness :
    (∀ es ∈ ([⟨"a.example.com", "A", ["1.2.3.4"], []⟩] : List EndpointSet),
      mapFind es.Labels OwnerLabelKey = none) ∧
    filterOwnedRecords "" [⟨"a.example.com", "A", ["1.2.3.4"], []⟩] = [] :=
  ⟨by decide, filterOwnedRecords_missing_owner_label_dropped "" _ (by decide)⟩

/-- Claim C5: for every ownerID and every list of `EndpointSet`s each carrying
the owner label, `filterOwnedRecords` returns exactly the subset whose owner
label value equals ownerID: present-and-matching sets are retained,
present-and-mismatching sets are dropped. -/
theorem filterOwnedRecords_present_owner_filter (ownerID : String)
    (endpointSets : List EndpointSet)
    (h : ∀ es ∈ endpointSets, (mapFind es.Labels OwnerLabelKey).isSome) :
    filterOwnedRecords ownerID endpointSets =
      endpointSets.filter fun es => decide (mapFind es.Labels OwnerLabelKey = some ownerID) := by
  induction endpointSets with
  | nil => rfl
  | cons es tl ih =>
    have h1 := h es (List.mem_cons_self es tl)
    have ih2 := ih fun e he => h e (List.mem_cons_of_mem _ he)
    cases hf : mapFind es.Labels OwnerLabelKey with
    | none =>
      rw [hf] at h1
      simp at h1
    | some owner =>
      by_cases ho : owner = ownerID
      · subst ho
        simp [filterOwnedRecords, hf, List.filter_cons, ih2]
      · simp [filterOwnedRecords, hf, ho, List.filter_cons, ih2]

/-- Claim C5, witness: one present-and-matching and one present-and-mismatching
owner label. -/
theorem filterOwnedRecords_present_owner_filter_witness :
    (∀ es ∈ ([⟨"a.example.com", "A", ["1"], [(OwnerLabelKey, "me")]⟩,
              ⟨"b.example.com", "A", ["2"], [(OwnerLabelKey, "you")]⟩] : List EndpointSet),
      (mapFind es.Labels OwnerLabelKey).isSome) ∧
    filterOwnedRecords "me"
      [⟨"a.example.com", "A", ["1"], [(OwnerLabelKey, "me")]⟩,
       ⟨"b.example.com", "A", ["2"], [(OwnerLabelKey, "you")]⟩] =
      ([⟨"a.example.com", "A", ["1"], [(OwnerLabelKey, "me")]⟩,
        ⟨"b.example.com", "A", ["2"], [(OwnerLabelKey, "you")]⟩].filter
        fun es => decide (mapFind es.Labels OwnerLabelKey = some "me")) :=
  ⟨by decide, filterOwnedRecords_present_owner_filter "me" _ (by decide)⟩

/-- Claim C8: when several current endpoints share a RecordKey, the plan's
Labels snapshot for the key is the Labels of the last such endpoint in
list-processing order (last write wins), while the key's current-target bucket
accumulates the targets of all of them in order. -/
theorem NewPlan_labels_last_write_targets_in_order
    (current desired : List Endpoint) (policy : Policy) (k : RecordKey) :
    mapFind (NewPlan current desired policy).Labels k =
      ((current.filter fun ep => decide (epKey ep = k)).getLast?).map Endpoint.Labels ∧
    mapFind (NewPlan current desired policy).CurrentTargets k =
      (if (current.filter fun ep => decide (epKey ep = k)).isEmpty then none
       else some ((current.filter fun ep => decide (epKey ep = k)).map Endpoint.Target)) := by
  constructor
  · rw [NewPlan_Labels, labelsFold_find]
    cases (current.filter fun ep => decide (epKey ep = k)).getLast? with
    | none => simp [mapFind]
    | some ep => simp
  · rw [NewPlan_CurrentTargets, ctargetsFold_find]
    cases hft : (current.filter fun ep => decide (epKey ep = k)).isEmpty with
    | true => simp [mapFind]
    | false => simp [mapFind]

/-- Claim C1: for desired/current endpoint lists whose aggregated RecordKeys
are disjoint, `Calculate`'s diff emits exactly one Create `EndpointSet` per
desired RecordKey (desired targets, no Labels), exactly one Delete
`EndpointSet` per current RecordKey (current targets, current Labels), and no
Update entries; bucket keys are unique, so it is one entry per key. -/
theorem calcChanges_disjoint_create_delete (current desired : List Endpoint)
    (policy : Policy)
    (hdisj : ∀ k ∈ keys (NewPlan current desired policy).RecordTargets,
      k ∉ keys (NewPlan current desired policy).CurrentTargets) :
    calcChanges (NewPlan current desired policy) =
      { Create := (NewPlan current desired policy).RecordTargets.map
          fun kd => ⟨kd.1.DNSName, kd.1.RecordType, kd.2, []⟩
        UpdateOld := []
        UpdateNew := []
        Delete := (NewPlan current desired policy).CurrentTargets.map
          fun kd => ⟨kd.1.DNSName, kd.1.RecordType, kd.2,
            (mapFind (NewPlan current desired policy).Labels kd.1).getD []⟩ } ∧
    (keys (NewPlan current desired policy).RecordTargets).Nodup ∧
    (keys (NewPlan current desired policy).CurrentTargets).Nodup := by
  have hRd : ∀ kd ∈ (NewPlan current desired policy).RecordTargets,
      mapFind (NewPlan current desired policy).CurrentTargets kd.1 = none := by
    intro kd hkd
    exact mapFind_eq_none_of_not_mem_keys _ _
      (hdisj kd.1 (List.mem_map.mpr ⟨kd, hkd, rfl⟩))
  have hCd : ∀ kd ∈ (NewPlan current desired policy).CurrentTargets,
      mapFind (NewPlan current desired policy).RecordTargets kd.1 = none := by
    intro kd hkd
    cases hf : mapFind (NewPlan current desired policy).RecordTargets kd.1 with
    | none => rfl
    | some v =>
      have h1 : kd.1 ∈ keys (NewPlan current desired policy).RecordTargets :=
        (mapFind_isSome_iff_mem_keys _ _).mp (by simp [hf])
      exact absurd (List.mem_map.mpr ⟨kd, hkd, rfl⟩) (hdisj kd.1 h1)
  refine ⟨?_, nodupKeys_NewPlan_RecordTargets current desired policy,
    nodupKeys_NewPlan_CurrentTargets current desired policy⟩
  rw [calcChanges_eq]
  have hfC : ((NewPlan current desired policy).RecordTargets.filter
      fun kd => (mapFind (NewPlan current desired policy).CurrentTargets kd.1).isNone) =
      (NewPlan current desired policy).RecordTargets :=
    List.filter_eq_self.mpr fun kd hkd => by simp [hRd kd hkd]
  have hfU : ((NewPlan current desired policy).RecordTargets.filter
      (updFilter (NewPlan current desired policy).CurrentTargets)) = [] := by
    rw [List.filter_eq_nil_iff]
    intro kd hkd
    simp [updFilter, hRd kd hkd]
  have hfD : ((NewPlan current desired policy).CurrentTargets.filter
      fun kd => (mapFind (NewPlan current desired policy).RecordTargets kd.1).isNone) =
      (NewPlan current desired policy).CurrentTargets :=
    List.filter_eq_self.mpr fun kd hkd => by simp [hCd kd hkd]
  rw [hfC, hfU, hfD]
  rfl

/-- Claim C1, witness: one desired and one current endpoint with different
RecordKeys. -/
theorem calcChanges_disjoint_create_delete_witness :
    (∀ k ∈ keys (NewPlan [epW "c.example.com" "9.9.9.9" "A"]
        [epW "d.example.com" "1.2.3.4" "A"] syncPolicy).RecordTargets,
      k ∉ keys (NewPlan [epW "c.example.com" "9.9.9.9" "A"]
        [epW "d.example.com" "1.2.3.4" "A"] syncPolicy).CurrentTargets) ∧
    calcChanges (NewPlan [epW "c.example.com" "9.9.9.9" "A"]
        [epW "d.example.com" "1.2.3.4" "A"] syncPolicy) =
      { Create := (NewPlan [epW "c.example.com" "9.9.9.9" "A"]
            [epW "d.example.com" "1.2.3.4" "A"] syncPolicy).RecordTargets.map
          fun kd => ⟨kd.1.DNSName, kd.1.RecordType, kd.2, []⟩
        UpdateOld := []
        UpdateNew := []
        Delete := (NewPlan [epW "c.example.com" "9.9.9.9" "A"]
            [epW "d.example.com" "1.2.3.4" "A"] syncPolicy).CurrentTargets.map
          fun kd => ⟨kd.1.DNSName, kd.1.RecordType, kd.2,
            (mapFind (NewPlan [epW "c.example.com" "9.9.9.9" "A"]
              [epW "d.example.com" "1.2.3.4" "A"] syncPolicy).Labels kd.1).getD []⟩ } :=
  ⟨by decide,
   (calcChanges_disjoint_create_delete [epW "c.example.com" "9.9.9.9" "A"]
     [epW "d.example.com" "1.2.3.4" "A"] syncPolicy (by decide)).1⟩

/-- Claim C2: for a RecordKey present in both buckets of a Plan (bucket keys
unique, as Go map keys are), if the desired and current target lists are equal
as multisets — any permutation, duplicates included — then no Create,
UpdateOld/UpdateNew or Delete entry is emitted for that key. -/
theorem calcChanges_multiset_equal_no_entry (p : Plan) (k : RecordKey)
    (ds cs : List String)
    (hnd : (keys p.RecordTargets).Nodup)
    (hd : mapFind p.RecordTargets k = some ds)
    (hcur : mapFind p.CurrentTargets k = some cs)
    (hperm : (ds : Multiset String) = (cs : Multiset String)) :
    (∀ es ∈ (calcChanges p).Create, esKey es ≠ k) ∧
    (∀ es ∈ (calcChanges p).UpdateOld, esKey es ≠ k) ∧
    (∀ es ∈ (calcChanges p).UpdateNew, esKey es ≠ k) ∧
    (∀ es ∈ (calcChanges p).Delete, esKey es ≠ k) := by
  have hts : TargetSliceEquals cs ds = true := by
    rw [TargetSliceEquals_eq_true_iff]
    exact hperm.symm
  have hupd : ∀ kd ∈ p.RecordTargets.filter (updFilter p.CurrentTargets), kd.1 ≠ k := by
    intro kd hkd he
    have hmem := (List.mem_filter.mp hkd).1
    have hflt := (List.mem_filter.mp hkd).2
    subst he
    have hval : mapFind p.RecordTargets kd.1 = some kd.2 :=
      mapFind_eq_of_mem _ _ _ hnd hmem
    rw [hd] at hval
    have hds : kd.2 = ds := by
      injection hval.symm
    rw [updFilter, hcur, hds] at hflt
    simp [hts] at hflt
  rw [calcChanges_eq]
  refine ⟨?_, ?_, ?_, ?_⟩
  · intro es hes
    obtain ⟨kd, hkd, rfl⟩ := List.mem_map.mp hes
    intro he
    have hflt := (List.mem_filter.mp hkd).2
    have hkey : kd.1 = k := he
    rw [hkey, hcur] at hflt
    simp at hflt
  · intro es hes
    obtain ⟨kd, hkd, rfl⟩ := List.mem_map.mp hes
    exact hupd kd hkd
  · intro es hes
    obtain ⟨kd, hkd, rfl⟩ := List.mem_map.mp hes
    exact hupd kd hkd
  · intro es hes
    obtain ⟨kd, hkd, rfl⟩ := List.mem_map.mp hes
    intro he
    have hflt := (List.mem_filter.mp hkd).2
    have hkey : kd.1 = k := he
    rw [hkey, hd] at hflt
    simp at hflt

/-- Claim C2, witness: permuted target lists on the shared key produce no
entry in any of the four lists. -/
theorem calcChanges_multiset_equal_no_entry_witness :
    (keys planW.RecordTargets).Nodup ∧
    mapFind planW.RecordTargets keyW = some ["a", "b"] ∧
    mapFind planW.CurrentTargets keyW = some ["b", "a"] ∧
    ((["a", "b"] : List String) : Multiset String) = (["b", "a"] : List String) ∧
    (∀ es ∈ (calcChanges planW).Create, esKey es ≠ keyW) ∧
    (∀ es ∈ (calcChanges planW).UpdateOld, esKey es ≠ keyW) ∧
    (∀ es ∈ (calcChanges planW).UpdateNew, esKey es ≠ keyW) ∧
    (∀ es ∈ (calcChanges planW).Delete, esKey es ≠ keyW) := by
  have h := calcChanges_multiset_equal_no_entry planW keyW ["a", "b"] ["b", "a"]
    (by decide) (by decide) (by decide) (by decide)
  exact ⟨by decide, by decide, by decide, by decide, h.1, h.2.1, h.2.2.1, h.2.2.2⟩

/-- Claim C3: invariants of the diff-computed `Changes` (before any policy):
Create keys and Delete keys are each free of duplicates and mutually disjoint
(so every RecordKey appears in at most one of them, at most once); each key
yields at most one matched update pair; `UpdateOld` and `UpdateNew` have equal
length and are positionally paired by identical RecordKey; and each update
pair's Labels (old and new) equal the current-state Labels snapshot for that
key; keys present in both buckets with differing target multisets do produce
such a pair.  Bucket keys are assumed unique, as Go map keys are. -/
theorem calcChanges_invariants (p : Plan)
    (hr : (keys p.RecordTargets).Nodup) (hc : (keys p.CurrentTargets).Nodup) :
    ((calcChanges p).Create.map esKey).Nodup ∧
    ((calcChanges p).Delete.map esKey).Nodup ∧
    (∀ k, k ∈ (calcChanges p).Create.map esKey → k ∉ (calcChanges p).Delete.map esKey) ∧
    ((calcChanges p).UpdateOld.map esKey).Nodup ∧
    (calcChanges p).UpdateOld.length = (calcChanges p).UpdateNew.length ∧
    (∀ i (h1 : i < (calcChanges p).UpdateOld.length)
        (h2 : i < (calcChanges p).UpdateNew.length),
      esKey ((calcChanges p).UpdateOld[i]) = esKey ((calcChanges p).UpdateNew[i]) ∧
      ((calcChanges p).UpdateOld[i]).Labels =
        (mapFind p.Labels (esKey ((calcChanges p).UpdateOld[i]))).getD [] ∧
      ((calcChanges p).UpdateNew[i]).Labels =
        (mapFind p.Labels (esKey ((calcChanges p).UpdateNew[i]))).getD []) ∧
    (∀ k ds cs, mapFind p.RecordTargets k = some ds →
      mapFind p.CurrentTargets k = some cs →
      (ds : Multiset String) ≠ (cs : Multiset String) →
      (⟨k.DNSName, k.RecordType, cs, (mapFind p.Labels k).getD []⟩ : EndpointSet) ∈
        (calcChanges p).UpdateOld ∧
      (⟨k.DNSName, k.RecordType, ds, (mapFind p.Labels k).getD []⟩ : EndpointSet) ∈
        (calcChanges p).UpdateNew) := by
  rw [calcChanges_eq]
  refine ⟨?_, ?_, ?_, ?_, ?_, ?_, ?_⟩
  · have : (((p.RecordTargets.filter fun kd =>
        (mapFind p.CurrentTargets kd.1).isNone).map
        fun kd => (⟨kd.1.DNSName, kd.1.RecordType, kd.2, []⟩ : EndpointSet)).map esKey) =
        (p.RecordTargets.filter fun kd =>
          (mapFind p.CurrentTargets kd.1).isNone).map Prod.fst := by
      rw [List.map_map]
      rfl
    rw [this]
    exact List.Nodup.sublist ((List.filter_sublist _).map Prod.fst) hr
  · have : (((p.CurrentTargets.filter fun kd =>
        (mapFind p.RecordTargets kd.1).isNone).map
        fun kd => (⟨kd.1.DNSName, kd.1.RecordType, kd.2,
          (mapFind p.Labels kd.1).getD []⟩ : EndpointSet)).map esKey) =
        (p.CurrentTargets.filter fun kd =>
          (mapFind p.RecordTargets kd.1).isNone).map Prod.fst := by
      rw [List.map_map]
      rfl
    rw [this]
    exact List.Nodup.sublist ((List.filter_sublist _).map Prod.fst) hc
  · intro k hkc hkd
    obtain ⟨es1, hes1, hk1⟩ := List.mem_map.mp hkc
    obtain ⟨kd1, hkd1, rfl⟩ := List.mem_map.mp hes1
    obtain ⟨es2, hes2, hk2⟩ := List.mem_map.mp hkd
    obtain ⟨kd2, hkd2, rfl⟩ := List.mem_map.mp hes2
    have hmem1 := (List.mem_filter.mp hkd1).1
    have hflt2 := (List.mem_filter.mp hkd2).2
    have hkey1 : kd1.1 = k := hk1
    have hkey2 : kd2.1 = k := hk2
    have hsome : (mapFind p.RecordTargets k).isSome := by
      rw [← hkey1]
      exact mapFind_isSome_of_mem _ _ _ hmem1
    rw [hkey2] at hflt2
    simp only [Option.isNone_iff_eq_none] at hflt2
    rw [hflt2] at hsome
    simp at hsome
  · have : (((p.RecordTargets.filter (updFilter p.CurrentTargets)).map
        fun kd => (⟨kd.1.DNSName, kd.1.RecordType, (mapFind p.CurrentTargets kd.1).getD [],
          (mapFind p.Labels kd.1).getD []⟩ : EndpointSet)).map esKey) =
        (p.RecordTargets.filter (updFilter p.CurrentTargets)).map Prod.fst := by
      rw [List.map_map]
      rfl
    rw [this]
    exact List.Nodup.sublist ((List.filter_sublist _).map Prod.fst) hr
  · rw [List.length_map, List.length_map]
  · intro i h1 h2
    rw [List.getElem_map, List.getElem_map]
    exact ⟨rfl, rfl, rfl⟩
  · intro k ds cs hd hcur hne
    have hts : TargetSliceEquals cs ds = false := by
      cases hts0 : TargetSliceEquals cs ds with
      | false => rfl
      | true =>
        have := (TargetSliceEquals_eq_true_iff cs ds).mp hts0
        exact absurd this.symm hne
    have hmem : (k, ds) ∈ p.RecordTargets := mem_of_mapFind_eq_some _ _ _ hd
    have hfmem : (k, ds) ∈ p.RecordTargets.filter (updFilter p.CurrentTargets) := by
      refine List.mem_filter.mpr ⟨hmem, ?_⟩
      rw [updFilter, hcur]
      simp [hts]
    constructor
    · refine List.mem_map.mpr ⟨(k, ds), hfmem, ?_⟩
      rw [hcur]
      rfl
    · exact List.mem_map.mpr ⟨(k, ds), hfmem, rfl⟩

/-- Claim C3, witness: a plan with one key in both buckets and differing
targets exercises the update-pair invariants. -/
theorem calcChanges_invariants_witness :
    (keys planW3.RecordTargets).Nodup ∧
    (keys planW3.CurrentTargets).Nodup ∧
    (calcChanges planW3).UpdateOld.length = (calcChanges planW3).UpdateNew.length ∧
    ((calcChanges planW3).UpdateOld.map esKey).Nodup :=
  ⟨by decide, by decide,
   (calcChanges_invariants planW3 (by decide) (by decide)).2.2.2.2.1,
   (calcChanges_invariants planW3 (by decide) (by decide)).2.2.2.1⟩

/-- Claim C6: a regular desired endpoint of RecordType InternalAlias whose
Target has entries in the alias index contributes, for each such alias, the
alias's Target to the desired bucket keyed by the alias's RecordType and the
endpoint's DNSName; on the spec's concrete scenario `Calculate` produces
exactly one Create entry for RecordKey {CNAME, app.example.com} with Targets
["A"]. -/
theorem NewPlan_alias_expansion :
    (∀ (current desired : List Endpoint) (policy : Policy) (ep al : Endpoint),
      ep ∈ desired → ep.AliasTarget = false →
      ep.RecordType = RecordTypeInternalALIAS →
      al ∈ (mapFind (NewPlan current desired policy).Aliases ep.Target).getD [] →
      al.Target ∈ (mapFind (NewPlan current desired policy).RecordTargets
        ⟨al.RecordType, ep.DNSName⟩).getD []) ∧
    (Calculate (NewPlan [] [lbW, appW] syncPolicy)).Changes =
      some { Create := [⟨"app.example.com", "CNAME", ["A"], []⟩]
             UpdateOld := []
             UpdateNew := []
             Delete := [] } := by
  constructor
  · intro current desired policy ep al hep hreg htype hal
    rw [NewPlan_RecordTargets]
    exact recordsFold_alias_mem _ _ _ ep al
      (List.mem_filter.mpr ⟨hep, by simp [hreg]⟩) htype hal
  · rfl

/-- Claim C6, witness for the quantified part, at the spec's concrete
scenario. -/
theorem NewPlan_alias_expansion_witness :
    (appW ∈ [lbW, appW] ∧ appW.AliasTarget = false ∧
     appW.RecordType = RecordTypeInternalALIAS ∧
     lbW ∈ (mapFind (NewPlan [] [lbW, appW] syncPolicy).Aliases appW.Target).getD []) ∧
    lbW.Target ∈ (mapFind (NewPlan [] [lbW, appW] syncPolicy).RecordTargets
      ⟨lbW.RecordType, appW.DNSName⟩).getD [] :=
  ⟨⟨by decide, by decide, by decide, by decide⟩,
   NewPlan_alias_expansion.1 [] [lbW, appW] syncPolicy appW lbW
     (by decide) (by decide) (by decide) (by decide)⟩

/-- Claim C7: a regular desired endpoint of RecordType InternalAlias whose
Target has no entry in the alias index contributes nothing: the plan built
with it equals the plan built without it (no bucket created, no error), and
consequently the subsequent `Calculate` results coincide — the endpoint is
silently dropped. -/
theorem NewPlan_alias_miss_dropped (current d1 d2 : List Endpoint) (ep : Endpoint)
    (policy : Policy)
    (hreg : ep.AliasTarget = false)
    (htype : ep.RecordType = RecordTypeInternalALIAS)
    (hmiss : (mapFind (NewPlan current (d1 ++ ep :: d2) policy).Aliases ep.Target).getD []
      = []) :
    NewPlan current (d1 ++ ep :: d2) policy = NewPlan current (d1 ++ d2) policy ∧
    Calculate (NewPlan current (d1 ++ ep :: d2) policy) =
      Calculate (NewPlan current (d1 ++ d2) policy) := by
  have halias : (NewPlan current (d1 ++ ep :: d2) policy).Aliases =
      (NewPlan current (d1 ++ d2) policy).Aliases := by
    rw [NewPlan_Aliases, NewPlan_Aliases, List.foldl_append, List.foldl_append,
      List.foldl_cons]
    simp [hreg]
  have hmiss2 : (mapFind (NewPlan current (d1 ++ d2) policy).Aliases ep.Target).getD []
      = [] := by
    rw [← halias]
    exact hmiss
  have hrt : (NewPlan current (d1 ++ ep :: d2) policy).RecordTargets =
      (NewPlan current (d1 ++ d2) policy).RecordTargets := by
    rw [NewPlan_RecordTargets, NewPlan_RecordTargets, halias, List.filter_append,
      List.filter_append, List.filter_cons_of_pos (by simp [hreg]), List.foldl_append,
      List.foldl_append, List.foldl_cons, if_pos htype, hmiss2, List.foldl_nil]
  have hplan : NewPlan current (d1 ++ ep :: d2) policy = NewPlan current (d1 ++ d2) policy :=
    Plan_ext _ _ halias rfl rfl hrt rfl rfl
  exact ⟨hplan, by rw [hplan]⟩

/-- Claim C7, witness: a single InternalAlias endpoint whose Target has no
alias-index entry yields the same plan as an empty desired list. -/
theorem NewPlan_alias_miss_dropped_witness :
    ((⟨"x.example.com", "missing", RecordTypeInternalALIAS, false, []⟩ : Endpoint).AliasTarget
        = false ∧
     (⟨"x.example.com", "missing", RecordTypeInternalALIAS, false, []⟩ : Endpoint).RecordType
        = RecordTypeInternalALIAS ∧
     (mapFind (NewPlan []
        [⟨"x.example.com", "missing", RecordTypeInternalALIAS, false, []⟩]
        syncPolicy).Aliases "missing").getD [] = []) ∧
    NewPlan [] [⟨"x.example.com", "missing", RecordTypeInternalALIAS, false, []⟩] syncPolicy =
      NewPlan [] [] syncPolicy :=
  ⟨⟨rfl, rfl, rfl⟩,
   (NewPlan_alias_miss_dropped [] [] []
     ⟨"x.example.com", "missing", RecordTypeInternalALIAS, false, []⟩
     syncPolicy rfl rfl rfl).1⟩
